import Mathlib

/-!
Verification development for the pod-compose reconciliation controller
(src/pod-compose/src/controller.rs and src/pod-compose/src/models.rs).

Modelling conventions:
* Rust `BTreeMap<String, String>` label maps become association lists
  (`Labels`) observed only through key lookup and key-replacing insert,
  which coincide with the map semantics on lists with distinct keys.
* The observation snapshot `BTreeMap<ContainerName, Container>` becomes an
  association list (`Snapshot`); `get` is key lookup and iteration is list
  traversal.  Map-ness (no duplicate keys) is carried as a hypothesis where
  a property depends on it.
* The blake3 hex digest of a `ContainerSpec` is abstracted as a parameter
  `hash : ContainerSpec → String`; the controller only ever compares digests
  for string equality, so no property below depends on the concrete digest.
* Backend RPC calls are modelled as a returned trace (`BackendCall` list);
  a method of `Controller` (`&mut self` in Rust, but never writing the
  `composition`, `containers` or `project_name` fields) becomes a function
  returning its result paired with the resulting controller state.
* Fallible operations return `Except ApplyError`; an error result carries
  no backend-call trace, matching the source, where both lookups precede
  every backend call.
-/

namespace PodCompose

abbrev ContainerName := String

abbrev ContainerId := String

abbrev ImageName := String

abbrev ImageId := String

/-- Label maps (`BTreeMap<String, String>` in the source), as association lists. -/
abbrev Labels := List (String × String)

/-- `BTreeMap::insert`: replace the value at an existing key, otherwise add the binding. -/
def labelsInsert (m : Labels) (k v : String) : Labels :=
  match m with
  | [] => [(k, v)]
  | (k₀, v₀) :: rest =>
    if k₀ == k then (k, v) :: rest else (k₀, v₀) :: labelsInsert rest k v

inductive ContainerStatus where
  | Configured
  | Running
  | Exited
  | Unknown
deriving DecidableEq, Repr

structure Container where
  id : ContainerId
  name : ContainerName
  status : ContainerStatus
  labels : Labels
deriving DecidableEq, Repr

structure ContainerSpec where
  name : ContainerName
  service_name : String
  image_name : ImageName
  labels : Labels
deriving DecidableEq, Repr

structure ImagePullSpec where
  name : ImageName
deriving DecidableEq, Repr

structure ImageBuildSpec where
  name : ImageName
  context : String
  dockerfile : String
  target : Option String
  build_args : List (String × String)
  labels : Labels
deriving DecidableEq, Repr

structure Image where
  id : ImageId
  labels : Labels
deriving DecidableEq, Repr

inductive PullPolicy where
  | IfNotPresent
  | Always
deriving DecidableEq, Repr

structure Composition where
  build_images : List ImageBuildSpec
  pull_images : List ImagePullSpec
  containers : List ContainerSpec
deriving DecidableEq, Repr

/-- The project-scoped observation snapshot `Map<ContainerName, Container>`. -/
abbrev Snapshot := List (ContainerName × Container)

/-- `BTreeMap::get` on the observation snapshot. -/
def mapGet (m : Snapshot) (k : ContainerName) : Option Container :=
  m.lookup k

def LABEL_PROJECT : String := "io.podman.compose.project"

def LABEL_SERVICE : String := "io.podman.compose.service"

def LABEL_HASH : String := "io.podman.compose.hash"

inductive ContainerOperation where
  | Create
  | Recreate
  | Start
  | Stop
  | Remove
deriving DecidableEq, Repr

/-- One RPC issued to the `ContainerBackend`, recorded as a trace event. -/
inductive BackendCall where
  | pull_image (name : ImageName)
  | create_container (spec : ContainerSpec)
  | start_container (id : String)
  | stop_container (id : String) (timeout : Nat)
  | remove_container (id : String) (remove_volumes : Bool)
deriving DecidableEq, Repr

/-- The two planning errors `container_apply` can raise before any backend call. -/
inductive ApplyError where
  | unknownContainerName (name : ContainerName)
  | couldNotFindContainer (name : ContainerName)
deriving DecidableEq, Repr

/-- Controller state: the fields of `struct Controller` other than the
backend handle (whose effects are returned as traces instead). -/
structure Controller where
  composition : Composition
  containers : Snapshot
  project_name : String
deriving DecidableEq, Repr

/-- `Controller::pull_images`, with the backend `get_image` responses supplied
as a function.  Returns the pull calls issued. -/
def Controller.pull_images (get_image : ImageName → Option Image)
    (pull_policy : PullPolicy) (self : Controller) :
    List BackendCall × Controller :=
  let calls := self.composition.pull_images.filterMap (fun image_spec =>
    match pull_policy, get_image image_spec.name with
    | PullPolicy.IfNotPresent, none => some (BackendCall.pull_image image_spec.name)
    | PullPolicy.Always, _ => some (BackendCall.pull_image image_spec.name)
    | _, _ => none)
  (calls, self)

/-- `Controller::find_orphans`: containers of the snapshot whose service label
is absent or names no currently declared service. -/
def Controller.find_orphans (self : Controller) :
    List ContainerName × Controller :=
  let services := self.composition.containers.map (fun spec => spec.service_name)
  let orphans := self.containers.filterMap (fun p =>
    let service := p.2.labels.lookup LABEL_SERVICE
    match service with
    | some service => if services.contains service then none else some p.1
    | none => some p.1)
  (orphans, self)

/-- Stream A of `Controller::start_containers_diff`: the per-spec
classification (`let diff = ...` in the source). -/
def start_containers_diff_streamA (hash : ContainerSpec → String)
    (self : Controller) : List (ContainerName × ContainerOperation) :=
  self.composition.containers.filterMap (fun spec =>
    let spec_hash := hash spec
    match mapGet self.containers spec.name with
    | none => some (spec.name, ContainerOperation.Create)
    | some container =>
      let container_hash := container.labels.lookup LABEL_HASH
      if (container_hash.map (fun h => h == spec_hash)).getD false then
        let operation := match container.status with
          | ContainerStatus.Configured => some ContainerOperation.Start
          | ContainerStatus.Running => none
          | ContainerStatus.Exited => some ContainerOperation.Start
          | ContainerStatus.Unknown => some ContainerOperation.Recreate
        operation.map (fun operation => (spec.name, operation))
      else
        some (spec.name, ContainerOperation.Recreate))

/-- Stream B of `Controller::start_containers_diff`: the scaled-down
detection (`let scaled_down_containers = ...` in the source). -/
def start_containers_diff_streamB (self : Controller) :
    List (ContainerName × ContainerOperation) :=
  let services := self.composition.containers.map (fun spec => spec.service_name)
  self.containers.filterMap (fun p =>
    let container_should_exist :=
      (self.composition.containers.find? (fun container_spec =>
        container_spec.name == p.1)).isSome
    let service := p.2.labels.lookup LABEL_SERVICE
    match service with
    | some service =>
      if services.contains service && !container_should_exist then
        some (p.1, ContainerOperation.Remove)
      else none
    | _ => none)

/-- `Controller::start_containers_diff` (`plan_up`): Stream A chained with
Stream B. -/
def Controller.start_containers_diff (hash : ContainerSpec → String)
    (self : Controller) :
    List (ContainerName × ContainerOperation) × Controller :=
  let diff := start_containers_diff_streamA hash self ++
    start_containers_diff_streamB self
  (diff, self)

/-- `Controller::stop_containers_diff` (`plan_stop`). -/
def Controller.stop_containers_diff (self : Controller) :
    List (ContainerName × ContainerOperation) × Controller :=
  let diff := self.composition.containers.filterMap (fun spec =>
    match mapGet self.containers spec.name with
    | some container =>
      if container.status = ContainerStatus.Running then
        some (spec.name, ContainerOperation.Stop)
      else none
    | _ => none)
  (diff, self)

/-- `Controller::remove_containers_diff` (`plan_down`). -/
def Controller.remove_containers_diff (self : Controller) :
    List (ContainerName × ContainerOperation) × Controller :=
  let diff := self.composition.containers.filterMap (fun spec =>
    match mapGet self.containers spec.name with
    | some _container => some (spec.name, ContainerOperation.Remove)
    | _ => none)
  (diff, self)

/-- `Controller::container_create`: hash the spec, then insert the three
system labels, then call `create_container`.  `new_id` stands for the id the
backend returns.  The result is the new id and the issued call trace. -/
def Controller.container_create (hash : ContainerSpec → String)
    (new_id : ContainerId) (self : Controller) (spec : ContainerSpec) :
    (ContainerId × List BackendCall) × Controller :=
  let h := hash spec
  let labels₁ := labelsInsert spec.labels LABEL_PROJECT self.project_name
  let labels₂ := labelsInsert labels₁ LABEL_SERVICE spec.service_name
  let labels₃ := labelsInsert labels₂ LABEL_HASH h
  let spec' := { spec with labels := labels₃ }
  ((new_id, [BackendCall.create_container spec']), self)

/-- `Controller::container_apply`: execute one planned operation, returning
either a planning error (raised before any backend call) or the trace of
backend calls issued. -/
def Controller.container_apply (hash : ContainerSpec → String)
    (new_id : ContainerId) (self : Controller) (name : ContainerName)
    (operation : ContainerOperation) (timeout : Nat) :
    Except ApplyError (List BackendCall) × Controller :=
  let container_spec : Except ApplyError ContainerSpec :=
    match self.composition.containers.find? (fun spec => spec.name == name) with
    | some spec => Except.ok spec
    | none => Except.error (ApplyError.unknownContainerName name)
  let result : Except ApplyError (List BackendCall) :=
    match operation with
    | ContainerOperation.Create =>
      match container_spec with
      | Except.error e => Except.error e
      | Except.ok spec =>
        let created := (self.container_create hash new_id spec).1
        Except.ok (created.2 ++ [BackendCall.start_container created.1])
    | ContainerOperation.Recreate =>
      match container_spec with
      | Except.error e => Except.error e
      | Except.ok spec =>
        match mapGet self.containers name with
        | none => Except.error (ApplyError.couldNotFindContainer name)
        | some container =>
          let stop_calls :=
            if container.status = ContainerStatus.Running then
              [BackendCall.stop_container container.id timeout]
            else []
          let created := (self.container_create hash new_id spec).1
          Except.ok (stop_calls ++
            [BackendCall.remove_container container.id false] ++
            created.2 ++ [BackendCall.start_container created.1])
    | ContainerOperation.Start =>
      match mapGet self.containers name with
      | none => Except.error (ApplyError.couldNotFindContainer name)
      | some container => Except.ok [BackendCall.start_container container.id]
    | ContainerOperation.Stop =>
      match mapGet self.containers name with
      | none => Except.error (ApplyError.couldNotFindContainer name)
      | some container =>
        Except.ok [BackendCall.stop_container container.id timeout]
    | ContainerOperation.Remove =>
      match mapGet self.containers name with
      | none => Except.error (ApplyError.couldNotFindContainer name)
      | some container =>
        let stop_calls :=
          if container.status = ContainerStatus.Running then
            [BackendCall.stop_container container.id timeout]
          else []
        Except.ok (stop_calls ++
          [BackendCall.remove_container container.id false])
  (result, self)

/-- The Stream A table of §4.4 of the specification, written from the spec
text: absent yields Create; present with a stored hash label different from
the recomputed digest (or with no hash label) yields Recreate regardless of
status; present with a matching label yields Start for Configured, nothing
for Running, Start for Exited, Recreate for Unknown.  Stated independently
of `start_containers_diff_streamA` so the two can be compared. -/
def planUpTable (hash : ContainerSpec → String) (snap : Snapshot)
    (spec : ContainerSpec) : Option ContainerOperation :=
  match mapGet snap spec.name with
  | none => some ContainerOperation.Create
  | some container =>
    if container.labels.lookup LABEL_HASH = some (hash spec) then
      match container.status with
      | ContainerStatus.Configured => some ContainerOperation.Start
      | ContainerStatus.Running => none
      | ContainerStatus.Exited => some ContainerOperation.Start
      | ContainerStatus.Unknown => some ContainerOperation.Recreate
    else some ContainerOperation.Recreate

/-! Concrete fixtures used by the witness and counterexample theorems. -/

/-- A stand-in digest function for concrete evaluations: the image name.
Every property below holds for an arbitrary `hash`; witnesses pick this one. -/
def exHash : ContainerSpec → String := fun spec => spec.image_name

def exSpec : ContainerSpec :=
  ContainerSpec.mk "proj_web_0" "web" "nginx" [("env", "prod")]

def exComposition : Composition := Composition.mk [] [] [exSpec]

/-- A container matching `exSpec` under `exHash`, with status Running. -/
def exMatching : Container :=
  Container.mk "id0" "proj_web_0" ContainerStatus.Running
    [(LABEL_HASH, "nginx"), (LABEL_SERVICE, "web")]

/-- A container for `exSpec` that carries no hash label at all. -/
def exNoHash : Container :=
  Container.mk "id1" "proj_web_0" ContainerStatus.Running
    [(LABEL_SERVICE, "web")]

/-- A container whose service label names no declared service. -/
def exOrphan : Container :=
  Container.mk "id2" "proj_old_0" ContainerStatus.Running
    [(LABEL_SERVICE, "old")]

/-! Helper lemmas about association lists. -/

/-- A successful key lookup in an association list finds an actual entry. -/
theorem lookup_mem {α : Type} {l : List (String × α)} {k : String} {v : α}
    (h : List.lookup k l = some v) : (k, v) ∈ l := by
  induction l with
  | nil => simp [List.lookup] at h
  | cons p t ih =>
    obtain ⟨k₀, v₀⟩ := p
    by_cases hk : k = k₀
    · subst hk
      simp [List.lookup] at h
      simp [h]
    · have hb : (k == k₀) = false := beq_eq_false_iff_ne.mpr hk
      simp [List.lookup, hb] at h
      exact List.mem_cons_of_mem _ (ih h)

/-- In an association list with pairwise-distinct keys, two entries with the
same key carry the same value. -/
theorem snd_unique_of_nodup_keys {α : Type} {l : List (String × α)}
    (hn : (l.map Prod.fst).Nodup) {k : String} {v v₁ : α}
    (h : (k, v) ∈ l) (h₁ : (k, v₁) ∈ l) : v = v₁ :=
  congrArg Prod.snd (List.inj_on_of_nodup_map hn h h₁ rfl)

/-- The first components produced by a `filterMap` whose results are tagged
with the source element's key form a subsequence of the keys. -/
theorem filterMap_fst_sublist {α β γ : Type} {f : α → Option (γ × β)}
    {g : α → γ} (hf : ∀ a p, f a = some p → p.1 = g a) (l : List α) :
    List.Sublist ((List.filterMap f l).map Prod.fst) (l.map g) := by
  induction l with
  | nil => simp
  | cons a t ih =>
    cases hfa : f a with
    | none =>
      simp only [List.filterMap_cons, hfa, List.map_cons]
      exact List.Sublist.cons _ ih
    | some p =>
      have hp := hf a p hfa
      simp only [List.filterMap_cons, hfa, List.map_cons, hp]
      exact List.Sublist.cons₂ _ ih

/-- Lookup after a key-replacing insert at the inserted key. -/
theorem labelsInsert_lookup_self (m : Labels) (k v : String) :
    List.lookup k (labelsInsert m k v) = some v := by
  induction m with
  | nil => simp [labelsInsert, List.lookup]
  | cons p t ih =>
    obtain ⟨k₀, v₀⟩ := p
    by_cases hk : k₀ = k
    · subst hk
      simp [labelsInsert, List.lookup]
    · have hb : (k == k₀) = false := beq_eq_false_iff_ne.mpr (Ne.symm hk)
      simp [labelsInsert, hk, List.lookup, hb]
      exact ih


/-- Stream A computes exactly the §4.4 table, tagged with the spec name. -/
theorem streamA_eq_table (hash : ContainerSpec → String) (self : Controller) :
    start_containers_diff_streamA hash self =
      self.composition.containers.filterMap (fun spec =>
        (planUpTable hash self.containers spec).map
          (fun op => (spec.name, op))) := by
  unfold start_containers_diff_streamA
  refine congrArg (fun f => List.filterMap f self.composition.containers)
    (funext fun spec => ?_)
  unfold planUpTable
  cases hg : mapGet self.containers spec.name with
  | none => simp [hg]
  | some c =>
    cases hh : List.lookup LABEL_HASH c.labels with
    | none => simp [hg, hh]
    | some s =>
      by_cases hs : s = hash spec
      · subst hs
        simp only [hg, hh]
        cases c.status <;> simp
      · have hb : (s == hash spec) = false := beq_eq_false_iff_ne.mpr hs
        simp [hg, hh, hb, hs]

theorem mem_streamA_iff (hash : ContainerSpec → String) (self : Controller)
    (hn : (self.composition.containers.map (fun spec => spec.name)).Nodup)
    {spec : ContainerSpec} (hs : spec ∈ self.composition.containers)
    (op : ContainerOperation) :
    (spec.name, op) ∈ start_containers_diff_streamA hash self ↔
      planUpTable hash self.containers spec = some op := by
  rw [streamA_eq_table, List.mem_filterMap]
  constructor
  · rintro ⟨a, ha, heq⟩
    rw [Option.map_eq_some'] at heq
    obtain ⟨op₁, htab, hpair⟩ := heq
    simp only [Prod.mk.injEq] at hpair
    obtain ⟨hname, hop⟩ := hpair
    have : a = spec := List.inj_on_of_nodup_map hn ha hs hname
    subst this
    subst hop
    exact htab
  · intro h
    exact ⟨spec, hs, by simp [h]⟩

theorem mem_streamB_iff (self : Controller) (n : ContainerName)
    (op : ContainerOperation) :
    (n, op) ∈ start_containers_diff_streamB self ↔
      (op = ContainerOperation.Remove ∧ ∃ c, (n, c) ∈ self.containers ∧
        (∃ s, List.lookup LABEL_SERVICE c.labels = some s ∧
          s ∈ self.composition.containers.map (fun spec => spec.service_name)) ∧
        ∀ spec ∈ self.composition.containers, spec.name ≠ n) := by
  unfold start_containers_diff_streamB
  rw [List.mem_filterMap]
  constructor
  · rintro ⟨⟨n₁, c⟩, hp, hbody⟩
    cases hserv : List.lookup LABEL_SERVICE c.labels with
    | none => simp [hserv] at hbody
    | some s =>
      simp only [hserv] at hbody
      split at hbody
      case isTrue hcond =>
        simp only [Option.some.injEq, Prod.mk.injEq] at hbody
        obtain ⟨hn1, hop⟩ := hbody
        subst hn1
        rw [Bool.and_eq_true, Bool.not_eq_true'] at hcond
        obtain ⟨hcontains, hexist⟩ := hcond
        refine ⟨hop.symm, c, hp, ⟨s, hserv, by simpa using hcontains⟩, ?_⟩
        intro spec hspec hname
        have hfind : (self.composition.containers.find?
            (fun container_spec => container_spec.name == n₁)) = none := by
          cases hfd : (self.composition.containers.find?
              (fun container_spec => container_spec.name == n₁)) with
          | none => rfl
          | some sp => rw [hfd] at hexist; simp at hexist
        exact absurd (by simp [hname]) (List.find?_eq_none.mp hfind spec hspec)
      case isFalse => simp at hbody
  · rintro ⟨hop, c, hmem, ⟨s, hserv, hsmem⟩, hnodecl⟩
    subst hop
    refine ⟨(n, c), hmem, ?_⟩
    have hcontains : (self.composition.containers.map
        (fun spec => spec.service_name)).contains s = true := by
      simp [hsmem]
    have hfind : (self.composition.containers.find?
        (fun container_spec => container_spec.name == n)) = none := by
      rw [List.find?_eq_none]
      intro spec hspec
      simp [hnodecl spec hspec]
    have hcond : ((self.composition.containers.map
        (fun spec => spec.service_name)).contains s &&
        !(self.composition.containers.find?
          (fun container_spec => container_spec.name == n)).isSome) = true := by
      rw [hcontains, hfind]
      rfl
    simp only [hserv]
    rw [if_pos hcond]

theorem mem_find_orphans_iff (self : Controller) (n : ContainerName) :
    n ∈ (Controller.find_orphans self).1 ↔
      ∃ c, (n, c) ∈ self.containers ∧
        (List.lookup LABEL_SERVICE c.labels = none ∨
         ∃ s, List.lookup LABEL_SERVICE c.labels = some s ∧
           ¬ s ∈ self.composition.containers.map
             (fun spec => spec.service_name)) := by
  unfold Controller.find_orphans
  rw [List.mem_filterMap]
  constructor
  · rintro ⟨⟨n₁, c⟩, hp, hbody⟩
    cases hserv : List.lookup LABEL_SERVICE c.labels with
    | none =>
      simp only [hserv, Option.some.injEq] at hbody
      subst hbody
      exact ⟨c, hp, Or.inl hserv⟩
    | some s =>
      simp only [hserv] at hbody
      split at hbody
      case isTrue => simp at hbody
      case isFalse hcond =>
        simp only [Option.some.injEq] at hbody
        subst hbody
        exact ⟨c, hp, Or.inr ⟨s, hserv, by simpa using hcond⟩⟩
  · rintro ⟨c, hmem, hcond⟩
    refine ⟨(n, c), hmem, ?_⟩
    rcases hcond with hnone | ⟨s, hserv, hnotmem⟩
    · simp [hnone]
    · have hcond : ¬ ((self.composition.containers.map
          (fun spec => spec.service_name)).contains s = true) := by
        intro hc
        exact hnotmem (by simpa using hc)
      simp only [hserv]
      rw [if_neg hcond]


/-- The §4.4 table never yields Remove: Stream A emits only Create,
Recreate and Start operations. -/
theorem planUpTable_ne_remove (hash : ContainerSpec → String)
    (snap : Snapshot) (spec : ContainerSpec) :
    planUpTable hash snap spec ≠ some ContainerOperation.Remove := by
  unfold planUpTable
  cases mapGet snap spec.name with
  | none => simp
  | some c =>
    by_cases hh : List.lookup LABEL_HASH c.labels = some (hash spec)
    · simp only [if_pos hh]
      cases c.status <;> simp
    · simp [hh]

/-- Claim C3: find_orphans returns exactly the names of the snapshot
containers whose io.podman.compose.service label is absent or whose value is
not among the service names declared by the composition. -/
theorem claim_C3 (self : Controller) (n : ContainerName) :
    n ∈ (Controller.find_orphans self).1 ↔
      ∃ c, (n, c) ∈ self.containers ∧
        (List.lookup LABEL_SERVICE c.labels = none ∨
         ∃ s, List.lookup LABEL_SERVICE c.labels = some s ∧
           ¬ s ∈ self.composition.containers.map
             (fun spec => spec.service_name)) :=
  mem_find_orphans_iff self n

/-- Claim C2: plan_up is Stream A followed by all of Stream B; Stream A names
appear in composition declaration order (they form a subsequence of the
declared names); and Stream B consists exactly of the (name, Remove) pairs
for observed containers whose service label names a declared service but
whose name is not a declared container name. -/
theorem claim_C2 (hash : ContainerSpec → String) (self : Controller) :
    (Controller.start_containers_diff hash self).1 =
        start_containers_diff_streamA hash self ++
          start_containers_diff_streamB self ∧
    List.Sublist ((start_containers_diff_streamA hash self).map Prod.fst)
        (self.composition.containers.map (fun spec => spec.name)) ∧
    (∀ n op, (n, op) ∈ start_containers_diff_streamB self ↔
      (op = ContainerOperation.Remove ∧ ∃ c, (n, c) ∈ self.containers ∧
        (∃ s, List.lookup LABEL_SERVICE c.labels = some s ∧
          s ∈ self.composition.containers.map
            (fun spec => spec.service_name)) ∧
        ∀ spec ∈ self.composition.containers, spec.name ≠ n)) ∧
    ∀ n, (n, ContainerOperation.Remove) ∈
        (Controller.start_containers_diff hash self).1 ↔
      (∃ c, (n, c) ∈ self.containers ∧
        (∃ s, List.lookup LABEL_SERVICE c.labels = some s ∧
          s ∈ self.composition.containers.map
            (fun spec => spec.service_name)) ∧
        ∀ spec ∈ self.composition.containers, spec.name ≠ n) := by
  refine ⟨rfl, ?_, fun n op => mem_streamB_iff self n op, fun n => ?_⟩
  · rw [streamA_eq_table]
    exact @filterMap_fst_sublist ContainerSpec ContainerOperation
      ContainerName
      (fun spec => (planUpTable hash self.containers spec).map
        (fun op => (spec.name, op)))
      (fun spec => spec.name)
      (fun a p hp => by
        obtain ⟨op₁, -, hpair⟩ := Option.map_eq_some'.mp hp
        rw [← hpair])
      self.composition.containers
  · have hAB : (Controller.start_containers_diff hash self).1 =
        start_containers_diff_streamA hash self ++
          start_containers_diff_streamB self := rfl
    rw [hAB, List.mem_append]
    constructor
    · rintro (hA | hB)
      · exfalso
        rw [streamA_eq_table, List.mem_filterMap] at hA
        obtain ⟨a, -, heq⟩ := hA
        obtain ⟨op₁, htab, hpair⟩ := Option.map_eq_some'.mp heq
        obtain rfl : op₁ = ContainerOperation.Remove := by
          simpa using congrArg Prod.snd hpair
        exact planUpTable_ne_remove hash self.containers a htab
      · exact ((mem_streamB_iff self n ContainerOperation.Remove).mp hB).2
    · intro h
      exact Or.inr ((mem_streamB_iff self n
        ContainerOperation.Remove).mpr ⟨rfl, h⟩)

/-- Claim C10: a declared spec whose observed container carries no
io.podman.compose.hash label at all is Recreated, regardless of status. -/
theorem claim_C10 (hash : ContainerSpec → String) (self : Controller)
    {spec : ContainerSpec} (hs : spec ∈ self.composition.containers)
    {c : Container} (hg : mapGet self.containers spec.name = some c)
    (hh : List.lookup LABEL_HASH c.labels = none) :
    (spec.name, ContainerOperation.Recreate) ∈
      (Controller.start_containers_diff hash self).1 := by
  refine List.mem_append_left _ ?_
  unfold start_containers_diff_streamA
  rw [List.mem_filterMap]
  exact ⟨spec, hs, by simp [hg, hh]⟩

/-- Witness for claim C10: a Running container without a hash label is
planned for Recreate. -/
theorem claim_C10_witness :
    (exSpec.name, ContainerOperation.Recreate) ∈
      (Controller.start_containers_diff exHash
        (Controller.mk exComposition [("proj_web_0", exNoHash)] "proj")).1 :=
  @claim_C10 exHash
    (Controller.mk exComposition [("proj_web_0", exNoHash)] "proj")
    exSpec (by decide) exNoHash (by decide) (by decide)

/-- Claim C9: every planner and applier invocation leaves the controller's
composition, snapshot and project name unchanged (the model threads the
controller state through each method exactly as the source, which never
writes these fields after construction). -/
theorem claim_C9 (hash : ContainerSpec → String)
    (get_image : ImageName → Option Image) (pull_policy : PullPolicy)
    (new_id : ContainerId) (self : Controller) (name : ContainerName)
    (op : ContainerOperation) (timeout : Nat) :
    (Controller.find_orphans self).2 = self ∧
    (Controller.start_containers_diff hash self).2 = self ∧
    (Controller.stop_containers_diff self).2 = self ∧
    (Controller.remove_containers_diff self).2 = self ∧
    (Controller.container_apply hash new_id self name op timeout).2 = self ∧
    (Controller.pull_images get_image pull_policy self).2 = self :=
  ⟨rfl, rfl, rfl, rfl, rfl, rfl⟩

/-- Claim C6: container_create stores, under io.podman.compose.hash, the
digest of the spec as supplied by the user — computed before the three
system labels are injected, so none of them contributes to it. -/
theorem claim_C6 (hash : ContainerSpec → String) (new_id : ContainerId)
    (self : Controller) (spec : ContainerSpec) :
    ∃ spec₁,
      (Controller.container_create hash new_id self spec).1.2 =
        [BackendCall.create_container spec₁] ∧
      spec₁.name = spec.name ∧
      spec₁.service_name = spec.service_name ∧
      spec₁.image_name = spec.image_name ∧
      List.lookup LABEL_HASH spec₁.labels = some (hash spec) :=
  ⟨_, rfl, rfl, rfl, rfl, labelsInsert_lookup_self _ _ _⟩


/-- Claim C1: for each declared spec, plan_up emits exactly the operation of
the §4.4 table (hash mismatch dominates status), and at most one operation
per declared container name.  The name-uniqueness invariant of the data
model (§3) is the `hn` hypothesis. -/
theorem claim_C1 (hash : ContainerSpec → String) (self : Controller)
    (hn : (self.composition.containers.map (fun spec => spec.name)).Nodup)
    {spec : ContainerSpec} (hs : spec ∈ self.composition.containers) :
    (∀ op, (spec.name, op) ∈ (Controller.start_containers_diff hash self).1 ↔
        planUpTable hash self.containers spec = some op) ∧
    List.count spec.name
        ((Controller.start_containers_diff hash self).1.map Prod.fst) ≤ 1 := by
  have hAB : (Controller.start_containers_diff hash self).1 =
      start_containers_diff_streamA hash self ++
        start_containers_diff_streamB self := rfl
  constructor
  · intro op
    rw [hAB, List.mem_append]
    constructor
    · rintro (hA | hB)
      · exact (mem_streamA_iff hash self hn hs op).mp hA
      · obtain ⟨-, c, -, -, hno⟩ := (mem_streamB_iff self spec.name op).mp hB
        exact absurd rfl (hno spec hs)
    · intro h
      exact Or.inl ((mem_streamA_iff hash self hn hs op).mpr h)
  · rw [hAB, List.map_append, List.count_append]
    have hB : List.count spec.name
        ((start_containers_diff_streamB self).map Prod.fst) = 0 := by
      rw [List.count_eq_zero]
      intro hmemB
      obtain ⟨⟨n₁, op₁⟩, hmem, hfst⟩ := List.mem_map.mp hmemB
      obtain ⟨-, c, -, -, hno⟩ := (mem_streamB_iff self n₁ op₁).mp hmem
      exact hno spec hs (by simpa using hfst.symm)
    have hA : List.count spec.name
        ((start_containers_diff_streamA hash self).map Prod.fst) ≤ 1 := by
      rw [streamA_eq_table]
      have hsub := @filterMap_fst_sublist ContainerSpec ContainerOperation
        ContainerName
        (fun spec => (planUpTable hash self.containers spec).map
          (fun op => (spec.name, op)))
        (fun spec => spec.name)
        (fun a p hp => by
          obtain ⟨op₁, -, hpair⟩ := Option.map_eq_some'.mp hp
          rw [← hpair])
        self.composition.containers
      exact le_trans (hsub.count_le spec.name)
        (List.nodup_iff_count_le_one.mp hn spec.name)
    omega

/-- Witness for claim C1: one declared spec, empty snapshot. -/
theorem claim_C1_witness :
    (∀ op, (exSpec.name, op) ∈
        (Controller.start_containers_diff exHash
          (Controller.mk exComposition [] "proj")).1 ↔
      planUpTable exHash
        (Controller.mk exComposition [] "proj").containers exSpec = some op) ∧
    List.count exSpec.name
        ((Controller.start_containers_diff exHash
          (Controller.mk exComposition [] "proj")).1.map Prod.fst) ≤ 1 :=
  @claim_C1 exHash (Controller.mk exComposition [] "proj") (by decide)
    exSpec (by decide)

/-- Claim C4: names returned by find_orphans never appear in Stream B of
plan_up; the `hn` hypothesis is the map-ness of the observation snapshot. -/
theorem claim_C4 (self : Controller)
    (hn : (self.containers.map Prod.fst).Nodup) (n : ContainerName)
    (ho : n ∈ (Controller.find_orphans self).1) :
    ∀ op, (n, op) ∉ start_containers_diff_streamB self := by
  intro op hmem
  obtain ⟨c, hc, hcond⟩ := (mem_find_orphans_iff self n).mp ho
  obtain ⟨-, c₁, hc₁, ⟨s, hserv, hsmem⟩, -⟩ :=
    (mem_streamB_iff self n op).mp hmem
  have hcc : c = c₁ := snd_unique_of_nodup_keys hn hc hc₁
  subst hcc
  rcases hcond with hnone | ⟨s₁, hserv₁, hnotmem⟩
  · rw [hnone] at hserv
    exact Option.noConfusion hserv
  · rw [hserv₁] at hserv
    obtain rfl : s₁ = s := Option.some.inj hserv
    exact hnotmem hsmem

/-- Witness for claim C4: an orphan container is not in Stream B. -/
theorem claim_C4_witness :
    ("proj_old_0", ContainerOperation.Remove) ∉ start_containers_diff_streamB
      (Controller.mk exComposition [("proj_old_0", exOrphan)] "proj") :=
  claim_C4 (Controller.mk exComposition [("proj_old_0", exOrphan)] "proj")
    (by decide) "proj_old_0" (by decide) ContainerOperation.Remove


/-- Counterexample to claim C5 as stated: with one declared spec and an
empty observation snapshot, every container of the snapshot vacuously
matches its declared spec and is Running, yet plan_up emits a Create. -/
theorem claim_C5_counterexample :
    ¬ ((∀ p ∈ ([] : Snapshot), ∃ spec ∈ exComposition.containers,
          spec.name = p.1 ∧
          List.lookup LABEL_HASH p.2.labels = some (exHash spec) ∧
          p.2.status = ContainerStatus.Running) →
        (Controller.start_containers_diff exHash
          (Controller.mk exComposition [] "proj")).1 = []) := by
  intro h
  have hdiff := h (by intro p hp; exact absurd hp (List.not_mem_nil p))
  have hval : (Controller.start_containers_diff exHash
      (Controller.mk exComposition [] "proj")).1 =
      [(exSpec.name, ContainerOperation.Create)] := rfl
  rw [hval] at hdiff
  exact List.noConfusion hdiff

/-- Claim C5, amended: plan_up is empty when, additionally, every declared
spec is present in the snapshot (with matching hash label and Running
status); the snapshot-only hypothesis of the original claim is vacuous on
an empty snapshot while a declared spec still yields Create. -/
theorem claim_C5 (hash : ContainerSpec → String) (self : Controller)
    (h1 : ∀ spec ∈ self.composition.containers, ∃ c,
        mapGet self.containers spec.name = some c ∧
        List.lookup LABEL_HASH c.labels = some (hash spec) ∧
        c.status = ContainerStatus.Running)
    (h2 : ∀ p ∈ self.containers, ∃ spec ∈ self.composition.containers,
        spec.name = p.1) :
    (Controller.start_containers_diff hash self).1 = [] := by
  have hA : start_containers_diff_streamA hash self = [] := by
    rw [streamA_eq_table, List.filterMap_eq_nil_iff]
    intro spec hspec
    obtain ⟨c, hg, hh, hrun⟩ := h1 spec hspec
    simp [planUpTable, hg, hh, hrun]
  have hB : start_containers_diff_streamB self = [] := by
    unfold start_containers_diff_streamB
    rw [List.filterMap_eq_nil_iff]
    intro p hp
    obtain ⟨spec, hspec, hname⟩ := h2 p hp
    have hfind : (self.composition.containers.find?
        (fun container_spec => container_spec.name == p.1)).isSome = true := by
      cases hfd : self.composition.containers.find?
          (fun container_spec => container_spec.name == p.1) with
      | none =>
        exact absurd (by simp [hname])
          (List.find?_eq_none.mp hfd spec hspec)
      | some sp => rfl
    cases hserv : List.lookup LABEL_SERVICE p.2.labels with
    | none => simp [hserv]
    | some s => simp [hserv, hfind]
  show start_containers_diff_streamA hash self ++
    start_containers_diff_streamB self = []
  rw [hA, hB]
  rfl

/-- Witness for amended claim C5: a converged one-container composition. -/
theorem claim_C5_witness :
    (Controller.start_containers_diff exHash
      (Controller.mk exComposition [("proj_web_0", exMatching)] "proj")).1 =
      [] :=
  claim_C5 exHash
    (Controller.mk exComposition [("proj_web_0", exMatching)] "proj")
    (by
      intro spec hspec
      have hspec₁ : spec = exSpec := by
        simpa [exComposition] using hspec
      subst hspec₁
      exact ⟨exMatching, by decide, by decide, by decide⟩)
    (by decide)


/-- Claim C7: Remove stops the container exactly when it is observed
Running, then removes it with remove_volumes = false; and every
remove_container call issued by container_apply, for any operation, passes
remove_volumes = false. -/
theorem claim_C7 (hash : ContainerSpec → String) (new_id : ContainerId)
    (self : Controller) (name : ContainerName) (timeout : Nat) :
    (∀ c, mapGet self.containers name = some c →
      (Controller.container_apply hash new_id self name
          ContainerOperation.Remove timeout).1 =
        Except.ok ((if c.status = ContainerStatus.Running then
            [BackendCall.stop_container c.id timeout] else []) ++
          [BackendCall.remove_container c.id false])) ∧
    (∀ op calls,
      (Controller.container_apply hash new_id self name op timeout).1 =
          Except.ok calls →
      ∀ id rv, BackendCall.remove_container id rv ∈ calls → rv = false) := by
  constructor
  · intro c hg
    simp [Controller.container_apply, hg]
  · intro op calls hok id rv hmem
    cases op with
    | Create =>
      cases hf : self.composition.containers.find?
          (fun spec => spec.name == name) with
      | none => simp [Controller.container_apply, hf] at hok
      | some spec =>
        simp only [Controller.container_apply, Controller.container_create,
          hf] at hok
        injection hok with hcalls
        subst hcalls
        simp at hmem
    | Recreate =>
      cases hf : self.composition.containers.find?
          (fun spec => spec.name == name) with
      | none => simp [Controller.container_apply, hf] at hok
      | some spec =>
        cases hg : mapGet self.containers name with
        | none => simp [Controller.container_apply, hf, hg] at hok
        | some c =>
          by_cases hrun : c.status = ContainerStatus.Running
          · simp only [Controller.container_apply,
              Controller.container_create, hf, hg, hrun, if_true] at hok
            injection hok with hcalls
            subst hcalls
            simp at hmem
            exact hmem.2
          · simp only [Controller.container_apply,
              Controller.container_create, hf, hg, hrun, if_false] at hok
            injection hok with hcalls
            subst hcalls
            simp at hmem
            exact hmem.2
    | Start =>
      cases hg : mapGet self.containers name with
      | none => simp [Controller.container_apply, hg] at hok
      | some c =>
        simp only [Controller.container_apply, hg] at hok
        injection hok with hcalls
        subst hcalls
        simp at hmem
    | Stop =>
      cases hg : mapGet self.containers name with
      | none => simp [Controller.container_apply, hg] at hok
      | some c =>
        simp only [Controller.container_apply, hg] at hok
        injection hok with hcalls
        subst hcalls
        simp at hmem
    | Remove =>
      cases hg : mapGet self.containers name with
      | none => simp [Controller.container_apply, hg] at hok
      | some c =>
        by_cases hrun : c.status = ContainerStatus.Running
        · simp only [Controller.container_apply, hg, hrun, if_true] at hok
          injection hok with hcalls
          subst hcalls
          simp at hmem
          exact hmem.2
        · simp only [Controller.container_apply, hg, hrun, if_false] at hok
          injection hok with hcalls
          subst hcalls
          simp at hmem
          exact hmem.2


/-- Witness for claim C7: removing an observed Running container stops it,
then removes it with remove_volumes = false. -/
theorem claim_C7_witness :
    (Controller.container_apply exHash "new"
        (Controller.mk exComposition [("proj_web_0", exMatching)] "proj")
        "proj_web_0" ContainerOperation.Remove 5).1 =
      Except.ok [BackendCall.stop_container "id0" 5,
        BackendCall.remove_container "id0" false] ∧
    false = false := by
  constructor
  · have h := (claim_C7 exHash "new"
      (Controller.mk exComposition [("proj_web_0", exMatching)] "proj")
      "proj_web_0" 5).1 exMatching (by decide)
    simpa [exMatching] using h
  · exact (claim_C7 exHash "new"
      (Controller.mk exComposition [("proj_web_0", exMatching)] "proj")
      "proj_web_0" 5).2 ContainerOperation.Remove
      [BackendCall.stop_container "id0" 5,
        BackendCall.remove_container "id0" false]
      (by rfl) "id0" false (by decide)

/-- Claim C8: container_apply raises "unknown container name" exactly for
Create/Recreate with no declared spec of that name, raises "could not find
container" exactly for Start/Stop/Remove (or Recreate with its spec
declared) when the name is not a snapshot key, and Start/Stop/Remove never
consult the composition, succeeding on any snapshot container. -/
theorem claim_C8 (hash : ContainerSpec → String) (new_id : ContainerId)
    (self : Controller) (name : ContainerName) (op : ContainerOperation)
    (timeout : Nat) :
    ((Controller.container_apply hash new_id self name op timeout).1 =
        Except.error (ApplyError.unknownContainerName name) ↔
      ((op = ContainerOperation.Create ∨ op = ContainerOperation.Recreate) ∧
        ∀ spec ∈ self.composition.containers, spec.name ≠ name)) ∧
    ((Controller.container_apply hash new_id self name op timeout).1 =
        Except.error (ApplyError.couldNotFindContainer name) ↔
      (mapGet self.containers name = none ∧
        (op = ContainerOperation.Start ∨ op = ContainerOperation.Stop ∨
         op = ContainerOperation.Remove ∨
         (op = ContainerOperation.Recreate ∧
           ∃ spec ∈ self.composition.containers, spec.name = name)))) ∧
    ((op = ContainerOperation.Start ∨ op = ContainerOperation.Stop ∨
        op = ContainerOperation.Remove) →
      ∀ c, mapGet self.containers name = some c →
        ∃ calls, (Controller.container_apply hash new_id self name op
          timeout).1 = Except.ok calls) := by
  cases op with
  | Create =>
    cases hf : self.composition.containers.find?
        (fun spec => spec.name == name) with
    | none =>
      have hno : ∀ spec ∈ self.composition.containers, spec.name ≠ name :=
        fun spec hs => by simpa using List.find?_eq_none.mp hf spec hs
      have hres : (Controller.container_apply hash new_id self name
          ContainerOperation.Create timeout).1 =
          Except.error (ApplyError.unknownContainerName name) := by
        simp only [Controller.container_apply, hf]
      refine ⟨iff_of_true hres ⟨Or.inl rfl, hno⟩,
        iff_of_false (by rw [hres]; simp) ?_, ?_⟩
      · rintro ⟨-, h | h | h | ⟨h, -⟩⟩ <;> simp at h
      · rintro (h | h | h) <;> simp at h
    | some spec =>
      have hsmem := List.mem_of_find?_eq_some hf
      have hsname : spec.name = name := by simpa using List.find?_some hf
      have hres : (Controller.container_apply hash new_id self name
          ContainerOperation.Create timeout).1 =
          Except.ok ((Controller.container_create hash new_id self spec).1.2
            ++ [BackendCall.start_container
              (Controller.container_create hash new_id self spec).1.1]) := by
        simp only [Controller.container_apply, hf]
      refine ⟨iff_of_false (by rw [hres]; simp) ?_,
        iff_of_false (by rw [hres]; simp) ?_, ?_⟩
      · rintro ⟨-, hno⟩
        exact hno spec hsmem hsname
      · rintro ⟨-, h | h | h | ⟨h, -⟩⟩ <;> simp at h
      · rintro (h | h | h) <;> simp at h
  | Recreate =>
    cases hf : self.composition.containers.find?
        (fun spec => spec.name == name) with
    | none =>
      have hno : ∀ spec ∈ self.composition.containers, spec.name ≠ name :=
        fun spec hs => by simpa using List.find?_eq_none.mp hf spec hs
      have hres : (Controller.container_apply hash new_id self name
          ContainerOperation.Recreate timeout).1 =
          Except.error (ApplyError.unknownContainerName name) := by
        simp only [Controller.container_apply, hf]
      refine ⟨iff_of_true hres ⟨Or.inr rfl, hno⟩,
        iff_of_false (by rw [hres]; simp) ?_, ?_⟩
      · rintro ⟨-, h | h | h | ⟨-, sp, hsp, hspname⟩⟩
        · simp at h
        · simp at h
        · simp at h
        · exact hno sp hsp hspname
      · rintro (h | h | h) <;> simp at h
    | some spec =>
      have hsmem := List.mem_of_find?_eq_some hf
      have hsname : spec.name = name := by simpa using List.find?_some hf
      cases hg : mapGet self.containers name with
      | none =>
        have hres : (Controller.container_apply hash new_id self name
            ContainerOperation.Recreate timeout).1 =
            Except.error (ApplyError.couldNotFindContainer name) := by
          simp only [Controller.container_apply, hf, hg]
        refine ⟨iff_of_false (by rw [hres]; simp) ?_,
          iff_of_true hres ⟨rfl, Or.inr (Or.inr (Or.inr
            ⟨rfl, spec, hsmem, hsname⟩))⟩, ?_⟩
        · rintro ⟨-, hno⟩
          exact hno spec hsmem hsname
        · rintro (h | h | h) <;> simp at h
      | some c =>
        have hres : (Controller.container_apply hash new_id self name
            ContainerOperation.Recreate timeout).1 =
            Except.ok ((if c.status = ContainerStatus.Running then
                [BackendCall.stop_container c.id timeout] else []) ++
              [BackendCall.remove_container c.id false] ++
              (Controller.container_create hash new_id self spec).1.2 ++
              [BackendCall.start_container
                (Controller.container_create hash new_id self spec).1.1]) := by
          simp only [Controller.container_apply, hf, hg]
        refine ⟨iff_of_false (by rw [hres]; simp) ?_,
          iff_of_false (by rw [hres]; simp) ?_, ?_⟩
        · rintro ⟨-, hno⟩
          exact hno spec hsmem hsname
        · rintro ⟨h, -⟩
          exact Option.noConfusion h
        · rintro (h | h | h) <;> simp at h
  | Start =>
    cases hg : mapGet self.containers name with
    | none =>
      have hres : (Controller.container_apply hash new_id self name
          ContainerOperation.Start timeout).1 =
          Except.error (ApplyError.couldNotFindContainer name) := by
        simp only [Controller.container_apply, hg]
      refine ⟨iff_of_false (by rw [hres]; simp) ?_,
        iff_of_true hres ⟨rfl, Or.inl rfl⟩, ?_⟩
      · rintro ⟨h | h, -⟩ <;> simp at h
      · intro h c hgc
        exact Option.noConfusion hgc
    | some c =>
      have hres : (Controller.container_apply hash new_id self name
          ContainerOperation.Start timeout).1 =
          Except.ok [BackendCall.start_container c.id] := by
        simp only [Controller.container_apply, hg]
      refine ⟨iff_of_false (by rw [hres]; simp) ?_,
        iff_of_false (by rw [hres]; simp) ?_, ?_⟩
      · rintro ⟨h | h, -⟩ <;> simp at h
      · rintro ⟨h, -⟩
        exact Option.noConfusion h
      · intro h c₁ hgc
        exact ⟨_, hres⟩
  | Stop =>
    cases hg : mapGet self.containers name with
    | none =>
      have hres : (Controller.container_apply hash new_id self name
          ContainerOperation.Stop timeout).1 =
          Except.error (ApplyError.couldNotFindContainer name) := by
        simp only [Controller.container_apply, hg]
      refine ⟨iff_of_false (by rw [hres]; simp) ?_,
        iff_of_true hres ⟨rfl, Or.inr (Or.inl rfl)⟩, ?_⟩
      · rintro ⟨h | h, -⟩ <;> simp at h
      · intro h c hgc
        exact Option.noConfusion hgc
    | some c =>
      have hres : (Controller.container_apply hash new_id self name
          ContainerOperation.Stop timeout).1 =
          Except.ok [BackendCall.stop_container c.id timeout] := by
        simp only [Controller.container_apply, hg]
      refine ⟨iff_of_false (by rw [hres]; simp) ?_,
        iff_of_false (by rw [hres]; simp) ?_, ?_⟩
      · rintro ⟨h | h, -⟩ <;> simp at h
      · rintro ⟨h, -⟩
        exact Option.noConfusion h
      · intro h c₁ hgc
        exact ⟨_, hres⟩
  | Remove =>
    cases hg : mapGet self.containers name with
    | none =>
      have hres : (Controller.container_apply hash new_id self name
          ContainerOperation.Remove timeout).1 =
          Except.error (ApplyError.couldNotFindContainer name) := by
        simp only [Controller.container_apply, hg]
      refine ⟨iff_of_false (by rw [hres]; simp) ?_,
        iff_of_true hres ⟨rfl, Or.inr (Or.inr (Or.inl rfl))⟩, ?_⟩
      · rintro ⟨h | h, -⟩ <;> simp at h
      · intro h c hgc
        exact Option.noConfusion hgc
    | some c =>
      have hres : (Controller.container_apply hash new_id self name
          ContainerOperation.Remove timeout).1 =
          Except.ok ((if c.status = ContainerStatus.Running then
              [BackendCall.stop_container c.id timeout] else []) ++
            [BackendCall.remove_container c.id false]) := by
        simp only [Controller.container_apply, hg]
      refine ⟨iff_of_false (by rw [hres]; simp) ?_,
        iff_of_false (by rw [hres]; simp) ?_, ?_⟩
      · rintro ⟨h | h, -⟩ <;> simp at h
      · rintro ⟨h, -⟩
        exact Option.noConfusion h
      · intro h c₁ hgc
        exact ⟨_, hres⟩

/-- Witness for claim C8: applying Create for an undeclared name fails with
the unknown-container-name error, and Start succeeds on a snapshot
container that has no declared spec. -/
theorem claim_C8_witness :
    (Controller.container_apply exHash "new"
        (Controller.mk exComposition [("proj_old_0", exOrphan)] "proj")
        "nope" ContainerOperation.Create 5).1 =
      Except.error (ApplyError.unknownContainerName "nope") ∧
    ∃ calls, (Controller.container_apply exHash "new"
        (Controller.mk exComposition [("proj_old_0", exOrphan)] "proj")
        "proj_old_0" ContainerOperation.Start 5).1 = Except.ok calls := by
  constructor
  · exact (claim_C8 exHash "new"
      (Controller.mk exComposition [("proj_old_0", exOrphan)] "proj")
      "nope" ContainerOperation.Create 5).1.mpr ⟨Or.inl rfl, by decide⟩
  · exact (claim_C8 exHash "new"
      (Controller.mk exComposition [("proj_old_0", exOrphan)] "proj")
      "proj_old_0" ContainerOperation.Start 5).2.2 (Or.inl rfl)
      exOrphan (by decide)

end PodCompose
